import Mathlib

/-!
Shallow embedding of the PoseEstimation3D repository (files
`pose_comparison.py`, `main_api.py`) sufficient to settle the claims about
its comparator, batch/streaming job event protocol and live session.

Conventions of the embedding:
* Python floats are modelled as `ℚ`.  The source compares the Euclidean
  distance `sqrt(dx^2+dy^2)` against `threshold`; to stay inside `ℚ` this
  comparison is expressed equivalently through squares:
  `sqrt d ≤ t ↔ (0 ≤ t ∧ d ≤ t^2)` for `d ≥ 0`.
* External collaborators (cv2 video capture/writer, MediaPipe keypoint
  extraction) are modelled as small abstract data types / oracle functions,
  following the narrow contracts the code relies on: a capture holds a list
  of frames and a cursor; a writer holds the file contents at its path
  (constructing a writer on a path truncates that path); extraction is an
  arbitrary function `Frame → Option (List ℚ)`.
-/

/-- A normalized keypoint vector is stored flat `[x0, y0, x1, y1, ...]` and
reshaped to pairs by `pose.reshape(-1, 2)` (`pose_comparison.py` lines 62-64). -/
def reshape2 : List ℚ → List (ℚ × ℚ)
  | x :: y :: rest => (x, y) :: reshape2 rest
  | _ => []

/-- Squared Euclidean distance between two 2-D keypoints
(`np.linalg.norm(pose1_reshaped - pose2_reshaped, axis=1)`, squared). -/
def keypointDistSq (p q : ℚ × ℚ) : ℚ := (p.1 - q.1) ^ 2 + (p.2 - q.2) ^ 2

/-- `keypoint_distances <= threshold` of line 70, with the Euclidean distance
`sqrt d2` compared through squares: `sqrt d2 ≤ t ↔ 0 ≤ t ∧ d2 ≤ t^2`. -/
def correctKeypoint (threshold d2 : ℚ) : Bool :=
  decide (0 ≤ threshold) && decide (d2 ≤ threshold ^ 2)

/-- `PoseComparison._calculate_score` (`pose_comparison.py` lines 46-80).
`pose1`/`pose2` are the optional flat keypoint vectors (`None` when no pose
was detected).  Returns `(score, wrong_keypoints)`:
if either pose is absent the result is `(0.0, set())` (lines 59-60),
otherwise the flat vectors are reshaped to pairs, per-index distances are
computed, an index is wrong iff its distance is not `≤ threshold`
(lines 67-73) and the score is `num_correct / total_keypoints` (lines 76-78). -/
def calculate_score (pose1 pose2 : Option (List ℚ)) (threshold : ℚ) : ℚ × Finset ℕ :=
  match pose1, pose2 with
  | some p1, some p2 =>
    let keypoint_distances := List.zipWith keypointDistSq (reshape2 p1) (reshape2 p2)
    let wrong_keypoints := (Finset.range keypoint_distances.length).filter
        (fun i => correctKeypoint threshold (keypoint_distances.getD i 0) = false)
    let num_correct := keypoint_distances.countP (fun d => correctKeypoint threshold d)
    ((num_correct : ℚ) / (keypoint_distances.length : ℚ), wrong_keypoints)
  | _, _ => (0, ∅)

/-! ### Helper lemmas about the comparator -/

theorem reshape2_length : ∀ l : List ℚ, (reshape2 l).length = l.length / 2
  | [] => rfl
  | [_] => by simp [reshape2]
  | _ :: _ :: rest => by
    simp only [reshape2, List.length_cons, reshape2_length rest]
    omega

theorem getD_zipWith (f : ℚ × ℚ → ℚ × ℚ → ℚ) (l₁ l₂ : List (ℚ × ℚ)) (i : ℕ)
    (h₁ : i < l₁.length) (h₂ : i < l₂.length) :
    (List.zipWith f l₁ l₂).getD i 0 = f (l₁.getD i (0, 0)) (l₂.getD i (0, 0)) := by
  have hz : i < (List.zipWith f l₁ l₂).length := by
    rw [List.length_zipWith]; exact lt_min h₁ h₂
  rw [List.getD_eq_getElem _ _ hz, List.getD_eq_getElem _ _ h₁, List.getD_eq_getElem _ _ h₂,
    List.getElem_zipWith]

theorem card_filter_range_getD {α : Type} (d₀ : α) (P : α → Prop) [DecidablePred P]
    (l : List α) :
    ((Finset.range l.length).filter (fun i => P (l.getD i d₀))).card
      = l.countP (fun a => decide (P a)) := by
  induction l using List.reverseRecOn with
  | nil => simp
  | append_singleton l x ih =>
    rw [List.length_append, List.length_singleton, Finset.range_succ, Finset.filter_insert,
      List.countP_append]
    have hcongr : (Finset.range l.length).filter (fun i => P ((l ++ [x]).getD i d₀))
        = (Finset.range l.length).filter (fun i => P (l.getD i d₀)) := by
      apply Finset.filter_congr
      intro i hi
      rw [List.getD_append _ _ _ _ (Finset.mem_range.mp hi)]
    have hx : (l ++ [x]).getD l.length d₀ = x := by
      rw [List.getD_eq_getElem _ _ (by simp)]
      simp
    by_cases h : P x
    · rw [if_pos (by rwa [hx]), Finset.card_insert_of_not_mem (by simp), hcongr, ih]
      simp [h]
    · rw [if_neg (by rwa [hx]), hcongr, ih]
      simp [h]

theorem countP_not_add {α : Type} (p : α → Bool) (l : List α) :
    l.countP (fun a => !p a) + l.countP p = l.length := by
  induction l with
  | nil => simp
  | cons x xs ih => by_cases h : p x <;> simp [List.countP_cons, h] <;> omega

theorem correctKeypoint_mono {t1 t2 d : ℚ} (h0 : 0 ≤ t1) (h : t1 ≤ t2)
    (hc : correctKeypoint t1 d = true) : correctKeypoint t2 d = true := by
  simp only [correctKeypoint, Bool.and_eq_true, decide_eq_true_eq] at hc ⊢
  exact ⟨le_trans h0 h, le_trans hc.2 (pow_le_pow_left₀ h0 h 2)⟩

/-! ### Claims about the comparator (C2, C4, C9) -/

/-- C2: for present keypoint vectors `a`, `b` of length 66 (33 keypoints, flat
x/y coordinates) and a threshold `t ≥ 0`, `_calculate_score` flags index `i`
as wrong iff the Euclidean distance between keypoints `a[i]` and `b[i]`
exceeds `t` (expressed through squared distances: `sqrt d > t ↔ t^2 < d` for
`t ≥ 0`); the wrong set is contained in `[0, 33)`; the score equals
`(33 - |wrong|) / 33`, lies in `[0, 1]`, and comparing `a` with itself
scores 1. -/
theorem C2_calculate_score_functional_correctness (a b : List ℚ) (t : ℚ)
    (ha : a.length = 66) (hb : b.length = 66) (ht : 0 ≤ t) :
    (calculate_score (some a) (some b) t).2
        = (Finset.range 33).filter
            (fun i => t ^ 2 <
              keypointDistSq ((reshape2 a).getD i (0, 0)) ((reshape2 b).getD i (0, 0))) ∧
    (calculate_score (some a) (some b) t).2 ⊆ Finset.range 33 ∧
    (calculate_score (some a) (some b) t).1
        = ((33 - (calculate_score (some a) (some b) t).2.card : ℕ) : ℚ) / 33 ∧
    0 ≤ (calculate_score (some a) (some b) t).1 ∧
    (calculate_score (some a) (some b) t).1 ≤ 1 ∧
    (calculate_score (some a) (some a) t).1 = 1 := by
  have hpa : (reshape2 a).length = 33 := by rw [reshape2_length, ha]
  have hpb : (reshape2 b).length = 33 := by rw [reshape2_length, hb]
  have hds : (List.zipWith keypointDistSq (reshape2 a) (reshape2 b)).length = 33 := by
    rw [List.length_zipWith, hpa, hpb]; rfl
  have hiff : ∀ d : ℚ, correctKeypoint t d = false ↔ t ^ 2 < d := by
    intro d
    simp [correctKeypoint, ht, not_le]
  have hcard : (calculate_score (some a) (some b) t).2.card
      = 33 - (List.zipWith keypointDistSq (reshape2 a) (reshape2 b)).countP
          (fun d => correctKeypoint t d) := by
    simp only [calculate_score]
    rw [card_filter_range_getD (0 : ℚ) (fun d => correctKeypoint t d = false)]
    have hc : (List.zipWith keypointDistSq (reshape2 a) (reshape2 b)).countP
          (fun d => decide (correctKeypoint t d = false))
        = (List.zipWith keypointDistSq (reshape2 a) (reshape2 b)).countP
          (fun d => !correctKeypoint t d) := by
      apply List.countP_congr
      intro x _
      simp
    rw [hc]
    have := countP_not_add (fun d => correctKeypoint t d)
      (List.zipWith keypointDistSq (reshape2 a) (reshape2 b))
    omega
  have hle : (List.zipWith keypointDistSq (reshape2 a) (reshape2 b)).countP
        (fun d => correctKeypoint t d)
      ≤ (List.zipWith keypointDistSq (reshape2 a) (reshape2 b)).length :=
    List.countP_le_length _
  refine ⟨?_, ?_, ?_, ?_, ?_, ?_⟩
  · simp only [calculate_score]
    rw [hds]
    apply Finset.filter_congr
    intro i hi
    have hi' : i < 33 := Finset.mem_range.mp hi
    rw [getD_zipWith _ _ _ _ (by omega) (by omega)]
    exact hiff _
  · simp only [calculate_score]
    rw [hds]
    exact Finset.filter_subset _ _
  · rw [hcard]
    simp only [calculate_score]
    rw [hds]
    have h33 : 33 - (33 - (List.zipWith keypointDistSq (reshape2 a) (reshape2 b)).countP
          (fun d => correctKeypoint t d))
        = (List.zipWith keypointDistSq (reshape2 a) (reshape2 b)).countP
          (fun d => correctKeypoint t d) := by omega
    rw [h33]
    norm_num
  · simp only [calculate_score]
    positivity
  · simp only [calculate_score]
    rw [hds]
    rw [div_le_one (by norm_num)]
    exact_mod_cast hds ▸ hle
  · simp only [calculate_score]
    rw [List.zipWith_same, List.countP_map, List.length_map]
    have hone : ∀ p : ℚ × ℚ, correctKeypoint t (keypointDistSq p p) = true := by
      intro p
      simp [correctKeypoint, keypointDistSq, ht, sq_nonneg]
    have hcp : (reshape2 a).countP ((fun d => correctKeypoint t d) ∘ fun p => keypointDistSq p p)
        = (reshape2 a).length := by
      rw [List.countP_eq_length]
      intro x _
      simp [hone]
    rw [hcp, hpa]
    norm_num

/-- Witness for C2 at the concrete input `a = b = 66 zeros`, `t = 7/100`. -/
theorem C2_calculate_score_functional_correctness_witness :
    (List.replicate 66 (0 : ℚ)).length = 66 ∧ (0 : ℚ) ≤ 7 / 100 ∧
    (calculate_score (some (List.replicate 66 (0 : ℚ)))
      (some (List.replicate 66 (0 : ℚ))) (7 / 100)).1 = 1 :=
  ⟨by simp, by norm_num,
    (C2_calculate_score_functional_correctness (List.replicate 66 0) (List.replicate 66 0)
      (7 / 100) (by simp) (by simp) (by norm_num)).2.2.2.2.2⟩

/-- C4: whenever either input pose is absent (`None`), `_calculate_score`
returns score `0.0` and an empty wrong-keypoint set (lines 59-60).  The
model is a total function, so the result is deterministic and no exception
is raised. -/
theorem C4_absent_input_yields_zero :
    (∀ (pose2 : Option (List ℚ)) (t : ℚ), calculate_score none pose2 t = (0, ∅)) ∧
    (∀ (pose1 : Option (List ℚ)) (t : ℚ), calculate_score pose1 none t = (0, ∅)) := by
  constructor
  · intro pose2 t
    cases pose2 <;> rfl
  · intro pose1 t
    cases pose1 <;> rfl

/-- C9: for thresholds `t1 < t2`, the wrong-keypoint set at the stricter
threshold `t1` contains the wrong-keypoint set at `t2` (lines 67-73: an index
is wrong iff its distance is not `≤ threshold`, and the allowed region grows
with the threshold). -/
theorem C9_wrong_keypoints_threshold_monotone (a b : List ℚ) (t1 t2 : ℚ) (h : t1 < t2) :
    (calculate_score (some a) (some b) t2).2 ⊆ (calculate_score (some a) (some b) t1).2 := by
  simp only [calculate_score]
  intro i hi
  simp only [Finset.mem_filter] at hi ⊢
  refine ⟨hi.1, ?_⟩
  have h2 := hi.2
  by_contra h1
  rw [Bool.not_eq_false] at h1
  have h0 : 0 ≤ t1 := by
    by_contra hneg
    simp [correctKeypoint, hneg] at h1
  rw [correctKeypoint_mono h0 (le_of_lt h) h1] at h2
  simp at h2

/-- Witness for C9 at the concrete input `a = b = []`, `t1 = 0 < t2 = 1`. -/
theorem C9_wrong_keypoints_threshold_monotone_witness :
    (0 : ℚ) < 1 ∧
    (calculate_score (some ([] : List ℚ)) (some []) 1).2
      ⊆ (calculate_score (some ([] : List ℚ)) (some []) 0).2 :=
  ⟨by norm_num, C9_wrong_keypoints_threshold_monotone [] [] 0 1 (by norm_num)⟩

/-! ### Live session model (`LiveComparisonSession`, `pose_comparison.py` lines 493-573)

External collaborators are modelled abstractly:
* a decoded image (`cv2.imdecode` result) is a `Frame` carrying its
  dimensions and an opaque payload tag; `process_frame`'s `bytes` argument
  is modelled as the decode result `Option Frame` (`none` = undecodable);
* `cv2.VideoCapture` over the reference video is a `RefCap`: a frame list,
  a read cursor (`CAP_PROP_POS_FRAMES`), an open flag and a count of
  `release()` calls;
* `cv2.VideoWriter` is a `VideoWriter` holding the target path, the fps and
  frame size it was constructed with, the frames written so far (the
  contents of the file at its path: constructing a writer on a path
  truncates that file) and a count of `release()` calls.  `VideoWriter.get` on
  the fps property returns the construction fps (per the spec's contract
  that video encode is reliable frame I/O with known FPS);
* MediaPipe keypoint extraction (`_extract_keypoints`) is an oracle
  `extract : Frame → Option (List ℚ)` passed in as a parameter. -/

structure Frame where
  width : ℕ
  height : ℕ
  data : ℕ
deriving DecidableEq

structure VideoWriter where
  path : String
  fps : ℚ
  width : ℕ
  height : ℕ
  frames : List Frame
  released : ℕ
deriving DecidableEq

structure RefCap where
  frames : List Frame
  pos : ℕ
  opened : Bool
  released : ℕ
deriving DecidableEq

/-- `cv2.VideoCapture.read()`: returns the frame at the cursor and advances
it, or `none` (ret = False) at end of stream / when the capture is closed. -/
def RefCap.read (c : RefCap) : Option Frame × RefCap :=
  if c.opened then
    match c.frames[c.pos]? with
    | some f => (some f, { c with pos := c.pos + 1 })
    | none => (none, c)
  else (none, c)

/-- `cap.set(cv2.CAP_PROP_POS_FRAMES, 0)`: rewind the cursor. -/
def RefCap.rewind (c : RefCap) : RefCap := { c with pos := 0 }

/-- `cap.release()`. -/
def RefCap.release (c : RefCap) : RefCap :=
  { c with opened := false, released := c.released + 1 }

/-- State of a `LiveComparisonSession`: the reference capture (owned through
`self.comparison`), the recording writer (`_initialize_recording` always
assigns one, so the `is not None` guard of line 527 always holds), the
recording flag, the output path, and the session's current notion of the
frame size (`self.width`/`self.height`, lines 509-510). -/
structure LiveSession where
  refCap : RefCap
  video_writer : VideoWriter
  is_recording : Bool
  output_path : String
  width : ℕ
  height : ℕ
deriving DecidableEq

/-- `LiveComparisonSession.__init__` / `_initialize_recording`
(lines 496-516): placeholder size 640x480, fps 20, recording on, writer
opened on the fresh output path. -/
def initSession (output_path : String) (ref : List Frame) : LiveSession :=
  { refCap := { frames := ref, pos := 0, opened := true, released := 0 }
  , video_writer :=
      { path := output_path, fps := 20, width := 640, height := 480
      , frames := [], released := 0 }
  , is_recording := true
  , output_path := output_path
  , width := 640
  , height := 480 }

/-- The JSON payload returned by `process_frame`: either an error dict
`{"error": msg}` or the comparison-result dict of lines 556-561. -/
inductive FrameResult where
  | err (msg : String) : FrameResult
  | ok (score : ℚ) (wrong_keypoints : Finset ℕ) (user_keypoints ref_keypoints : List ℚ) :
      FrameResult
deriving DecidableEq

/-- Reference-frame acquisition of lines 534-541: read once; on failure
rewind to frame 0 and read again. -/
def refReadLoop (c : RefCap) : Option Frame × RefCap :=
  match c.read with
  | (some f, c') => (some f, c')
  | (none, c') => c'.rewind.read

/-- `LiveComparisonSession.process_frame` (lines 518-561).
`extract` is the MediaPipe keypoint-extraction oracle and `input` the
outcome of `cv2.imdecode` on the received bytes.  Mirrors the source order:
decode guard (lines 521-524); re-open of the recording writer at the new
dimensions when they differ from the session's current ones, keeping
`self.output_path` and the fps read back from the old writer (lines
527-532) — note the new writer is opened on the *same* path, truncating the
file written so far; reference read with rewind-on-exhaustion (lines
534-541); keypoint extraction and scoring with the default threshold 0.07
(lines 543-546); write of the raw user frame while recording (lines
549-550); result payload (lines 552-561). -/
def process_frame (extract : Frame → Option (List ℚ)) (input : Option Frame)
    (s₀ : LiveSession) : FrameResult × LiveSession :=
  match input with
  | none => (FrameResult.err "Invalid frame received.", s₀)
  | some user_frame =>
    let s₁ :=
      if (s₀.height, s₀.width) ≠ (user_frame.height, user_frame.width) then
        { s₀ with
            height := user_frame.height
          , width := user_frame.width
          , video_writer :=
              { path := s₀.output_path
              , fps := s₀.video_writer.fps
              , width := user_frame.width
              , height := user_frame.height
              , frames := []
              , released := 0 } }
      else s₀
    let rr := refReadLoop s₁.refCap
    let s₂ := { s₁ with refCap := rr.2 }
    match rr.1 with
    | none => (FrameResult.err "Could not read reference video.", s₂)
    | some ref_frame =>
      let user_keypoints := extract user_frame
      let ref_keypoints := extract ref_frame
      let sw := calculate_score user_keypoints ref_keypoints (7 / 100)
      let s₃ :=
        if s₂.is_recording then
          { s₂ with video_writer :=
              { s₂.video_writer with frames := s₂.video_writer.frames ++ [user_frame] } }
        else s₂
      (FrameResult.ok sw.1 sw.2 (user_keypoints.getD []) (ref_keypoints.getD []), s₃)

/-- `LiveComparisonSession.close` (lines 563-573): release the writer if
still recording, release the reference capture if still open, return the
output path. -/
def LiveSession.close (s : LiveSession) : String × LiveSession :=
  let s₁ :=
    if s.is_recording then
      { s with video_writer := { s.video_writer with released := s.video_writer.released + 1 }
             , is_recording := false }
    else s
  let s₂ :=
    if s₁.refCap.opened then { s₁ with refCap := s₁.refCap.release } else s₁
  (s₂.output_path, s₂)

/-- Folding a whole call sequence through `process_frame` (each WebSocket
message in `main_api.py` lines 300-304 performs one call). -/
def runSession (extract : Frame → Option (List ℚ)) (inputs : List (Option Frame))
    (s : LiveSession) : LiveSession :=
  inputs.foldl (fun st inp => (process_frame extract inp st).2) s

/-! ### Claims about the live session (C7, C8, C5, C3, C10) -/

/-- C7: a `process_frame` call whose bytes do not decode (modelled as a
`none` decode outcome) returns exactly the payload
`{"error": "Invalid frame received."}` and leaves the whole session state
(reference cursor, recording sink and its recorded frames, open/recording
flags) unchanged, so the session remains usable (lines 521-524 return
before any mutation). -/
theorem C7_invalid_frame_leaves_session_unchanged
    (extract : Frame → Option (List ℚ)) (s : LiveSession) :
    process_frame extract none s = (FrameResult.err "Invalid frame received.", s) ∧
    (process_frame extract none s).2.video_writer.frames = s.video_writer.frames :=
  ⟨rfl, rfl⟩

/-- C8: calling `close` twice never double-releases: the first call releases
the writer and the reference capture at most once each, and the second call
is a no-op that releases nothing and still returns the same output path
(lines 563-573: both releases are guarded by `is_recording` /
`ref_cap.isOpened()`, which the first call clears).  The model is a total
function, so no exception is raised. -/
theorem C8_close_twice_is_safe (s : LiveSession) :
    LiveSession.close (LiveSession.close s).2
        = ((LiveSession.close s).2.output_path, (LiveSession.close s).2) ∧
    (LiveSession.close s).2.output_path = s.output_path ∧
    (LiveSession.close s).2.video_writer.released ≤ s.video_writer.released + 1 ∧
    (LiveSession.close s).2.refCap.released ≤ s.refCap.released + 1 := by
  unfold LiveSession.close RefCap.release
  by_cases h1 : s.is_recording <;> by_cases h2 : s.refCap.opened <;>
    simp [h1, h2]

/-- C5: when the incoming frame's dimensions differ from the session's
current recording dimensions, `process_frame` re-opens the recording writer
at the frame's size, on the same output path and with the fps read back
from the previous writer (lines 527-532), and the rest of the call keeps
path, fps and size intact. -/
theorem C5_reopen_preserves_path_and_fps (extract : Frame → Option (List ℚ))
    (f : Frame) (s : LiveSession)
    (hdiff : (s.height, s.width) ≠ (f.height, f.width)) :
    (process_frame extract (some f) s).2.video_writer.path = s.output_path ∧
    (process_frame extract (some f) s).2.output_path = s.output_path ∧
    (process_frame extract (some f) s).2.video_writer.fps = s.video_writer.fps ∧
    (process_frame extract (some f) s).2.video_writer.width = f.width ∧
    (process_frame extract (some f) s).2.video_writer.height = f.height := by
  simp only [process_frame]
  rw [if_pos hdiff]
  rcases hloop : refReadLoop s.refCap with ⟨rr, cap⟩
  rcases rr with _ | rf <;> by_cases hrec : s.is_recording <;>
    simp only [hloop, hrec] <;> simp

/-- While the reference capture is open and its video nonempty, the
read-with-rewind loop of lines 534-541 always yields a frame and preserves
the capture's openness and frame list. -/
theorem refReadLoop_of_opened (c : RefCap) (ho : c.opened = true) (hne : c.frames ≠ []) :
    ∃ f c', refReadLoop c = (some f, c') ∧ c'.opened = true ∧ c'.frames = c.frames := by
  have h0 : 0 < c.frames.length := List.length_pos.mpr hne
  unfold refReadLoop RefCap.read RefCap.rewind
  by_cases hp : c.pos < c.frames.length
  · rw [List.getElem?_eq_getElem hp]
    simp [ho]
    exact ⟨_, _, ⟨rfl, rfl⟩, rfl, rfl⟩
  · rw [List.getElem?_eq_none (by omega)]
    simp only [ho, if_true]
    rw [List.getElem?_eq_getElem h0]
    simp [ho]
    exact ⟨_, _, ⟨rfl, rfl⟩, rfl, rfl⟩

/-- One successful (`some`-decoded) `process_frame` call on a recording,
open session with a nonempty reference: it returns an `ok` payload, keeps
the session recording and the reference open, and appends exactly the user
frame to the writer — on top of the previous recording when the dimensions
match, on top of the truncated (empty) file when the writer was re-opened.
Afterwards the session's dimensions equal the frame's. -/
theorem process_frame_some_state (extract : Frame → Option (List ℚ)) (f : Frame)
    (s : LiveSession) (hrec : s.is_recording = true) (ho : s.refCap.opened = true)
    (hne : s.refCap.frames ≠ []) :
    (∃ sc wr uk rk, (process_frame extract (some f) s).1 = FrameResult.ok sc wr uk rk) ∧
    (process_frame extract (some f) s).2.is_recording = true ∧
    (process_frame extract (some f) s).2.refCap.opened = true ∧
    (process_frame extract (some f) s).2.refCap.frames = s.refCap.frames ∧
    (process_frame extract (some f) s).2.video_writer.frames
        = (if (s.height, s.width) ≠ (f.height, f.width) then [] else s.video_writer.frames)
          ++ [f] ∧
    (process_frame extract (some f) s).2.height = f.height ∧
    (process_frame extract (some f) s).2.width = f.width := by
  obtain ⟨rf, cap', hloop, hcapo, hcapf⟩ := refReadLoop_of_opened s.refCap ho hne
  by_cases hd : (s.height, s.width) ≠ (f.height, f.width)
  · simp only [process_frame]
    rw [if_pos hd, if_pos hd]
    simp only [hloop, hrec]
    refine ⟨⟨_, _, _, _, rfl⟩, ?_⟩
    simp [hcapo, hcapf, hrec]
  · simp only [process_frame]
    rw [if_neg hd, if_neg hd]
    simp only [hloop, hrec]
    refine ⟨⟨_, _, _, _, rfl⟩, ?_⟩
    simp only [ne_eq, not_not] at hd
    have hh : s.height = f.height := congrArg Prod.fst hd
    have hw : s.width = f.width := congrArg Prod.snd hd
    simp [hcapo, hcapf, hrec, hh, hw]

/-- Folding `process_frame` over a call sequence whose decoded frames all
have the same dimensions `w × h`: the recording grows by exactly the decoded
frames, in call order (invariant: once a frame has been recorded the
session's dimensions are `w × h`, so the writer is never re-opened again). -/
theorem runSession_frames_uniform (extract : Frame → Option (List ℚ)) (w h : ℕ) :
    ∀ (inputs : List (Option Frame)) (s : LiveSession),
      s.is_recording = true → s.refCap.opened = true → s.refCap.frames ≠ [] →
      (∀ f ∈ inputs.filterMap id, f.width = w ∧ f.height = h) →
      ((s.height, s.width) = (h, w) ∨ s.video_writer.frames = []) →
      (runSession extract inputs s).video_writer.frames
        = s.video_writer.frames ++ inputs.filterMap id := by
  intro inputs
  induction inputs with
  | nil =>
    intro s _ _ _ _ _
    simp [runSession]
  | cons inp rest ih =>
    intro s hrec ho hne hdim hinv
    cases inp with
    | none =>
      have hstep : (process_frame extract none s).2 = s := rfl
      simp only [runSession, List.foldl_cons, hstep] at ih ⊢
      rw [ih s hrec ho hne (fun f hf => hdim f (by simpa using hf)) hinv]
      simp
    | some f =>
      obtain ⟨-, hrec', ho', hfr', hwf', hh', hw'⟩ :=
        process_frame_some_state extract f s hrec ho hne
      have hf : f.width = w ∧ f.height = h := hdim f (by simp)
      have hfr'' : (process_frame extract (some f) s).2.video_writer.frames
          = s.video_writer.frames ++ [f] := by
        rw [hwf']
        by_cases hd : (s.height, s.width) ≠ (f.height, f.width)
        · rcases hinv with hinv | hinv
        /- the dimensions cannot differ once the invariant pins them -/
          · exact absurd (by rw [hinv, hf.2, hf.1]) hd
          · rw [if_pos hd, hinv]
        · rw [if_neg hd]
      simp only [runSession, List.foldl_cons] at ih ⊢
      rw [ih ((process_frame extract (some f) s).2) hrec' ho' (by rw [hfr']; exact hne)
        (fun g hg => hdim g (by simp [hg])) (Or.inl (by rw [hh', hw', hf.1, hf.2])),
        hfr'']
      simp

/-- C3 (amended): starting from a fresh session with a nonempty reference
video, if every decoded frame of the call sequence has the same dimensions
`w × h`, then the recorded video contains exactly one frame per successful
`process_frame` call, in call order (each decoded frame is one successful
call, and undecodable inputs change nothing).  The restriction to uniform
dimensions is forced: a mid-session dimension change re-opens the writer on
the same path and truncates earlier recorded frames (see the
counterexample). -/
theorem C3_amended_recording_one_frame_per_call (extract : Frame → Option (List ℚ))
    (path : String) (ref : List Frame) (inputs : List (Option Frame)) (w h : ℕ)
    (href : ref ≠ [])
    (hdim : ∀ f ∈ inputs.filterMap id, f.width = w ∧ f.height = h) :
    (runSession extract inputs (initSession path ref)).video_writer.frames
      = inputs.filterMap id := by
  have hbase := runSession_frames_uniform extract w h inputs (initSession path ref)
    rfl rfl href hdim (Or.inr rfl)
  simpa [initSession] using hbase

/-- Witness for the amended C3: three calls (two decodable 640x480 frames,
one undecodable blob) leave exactly the two decoded frames on the recording
in order. -/
theorem C3_amended_recording_one_frame_per_call_witness :
    ([⟨640, 480, 0⟩] : List Frame) ≠ [] ∧
    (runSession (fun _ => none) [some ⟨640, 480, 1⟩, none, some ⟨640, 480, 2⟩]
        (initSession "live.mp4" [⟨640, 480, 0⟩])).video_writer.frames
      = [⟨640, 480, 1⟩, ⟨640, 480, 2⟩] :=
  ⟨by decide,
    C3_amended_recording_one_frame_per_call (fun _ => none) "live.mp4" [⟨640, 480, 0⟩]
      [some ⟨640, 480, 1⟩, none, some ⟨640, 480, 2⟩] 640 480 (by decide)
      (by intro f hf; simp at hf; rcases hf with rfl | rfl <;> exact ⟨rfl, rfl⟩)⟩

/-- C3 (counterexample to the claim as stated): a session whose second
frame has different dimensions from the first.  Both calls succeed (each
returns an `ok` payload), the first call records its frame, but the second
call re-opens the writer on the same output path, truncating the file: the
final recording holds one frame, not two. -/
theorem C3_counterexample_dimension_change_truncates :
    (process_frame (fun _ => none) (some ⟨640, 480, 1⟩)
        (initSession "live.mp4" [⟨640, 480, 0⟩])).1 = FrameResult.ok 0 ∅ [] [] ∧
    (process_frame (fun _ => none) (some ⟨640, 480, 1⟩)
        (initSession "live.mp4" [⟨640, 480, 0⟩])).2.video_writer.frames
      = [⟨640, 480, 1⟩] ∧
    (process_frame (fun _ => none) (some ⟨1280, 720, 2⟩)
        (process_frame (fun _ => none) (some ⟨640, 480, 1⟩)
          (initSession "live.mp4" [⟨640, 480, 0⟩])).2).1 = FrameResult.ok 0 ∅ [] [] ∧
    (process_frame (fun _ => none) (some ⟨1280, 720, 2⟩)
        (process_frame (fun _ => none) (some ⟨640, 480, 1⟩)
          (initSession "live.mp4" [⟨640, 480, 0⟩])).2).2.video_writer.frames
      = [⟨1280, 720, 2⟩] ∧
    ([⟨1280, 720, 2⟩] : List Frame).length = 1 :=
  ⟨rfl, rfl, rfl, rfl, rfl⟩

/-- Witness for C5: a fresh session (placeholder 640x480) receiving a
1280x720 frame re-opens the writer keeping path and fps. -/
theorem C5_reopen_preserves_path_and_fps_witness :
    ((initSession "live2.mp4" [⟨640, 480, 0⟩]).height,
        (initSession "live2.mp4" [⟨640, 480, 0⟩]).width)
      ≠ ((⟨1280, 720, 1⟩ : Frame).height, (⟨1280, 720, 1⟩ : Frame).width) ∧
    (process_frame (fun _ => none) (some ⟨1280, 720, 1⟩)
        (initSession "live2.mp4" [⟨640, 480, 0⟩])).2.video_writer.path
      = (initSession "live2.mp4" [⟨640, 480, 0⟩]).output_path ∧
    (process_frame (fun _ => none) (some ⟨1280, 720, 1⟩)
        (initSession "live2.mp4" [⟨640, 480, 0⟩])).2.video_writer.fps
      = (initSession "live2.mp4" [⟨640, 480, 0⟩]).video_writer.fps :=
  ⟨by decide,
    (C5_reopen_preserves_path_and_fps (fun _ => none) ⟨1280, 720, 1⟩
      (initSession "live2.mp4" [⟨640, 480, 0⟩]) (by decide)).1,
    (C5_reopen_preserves_path_and_fps (fun _ => none) ⟨1280, 720, 1⟩
      (initSession "live2.mp4" [⟨640, 480, 0⟩]) (by decide)).2.2.1⟩

/-- The comparison call of the batch pipeline frame loop
(`process_video_files`, line 300): `self._calculate_score(user_keypoints,
ref_keypoints)` passes no threshold, so Python fills in the declaration
default `threshold=0.07` of line 46. -/
def batch_frame_score (user_keypoints ref_keypoints : Option (List ℚ)) : ℚ × Finset ℕ :=
  calculate_score user_keypoints ref_keypoints (7 / 100)

/-- The comparison call of the annotation pass (`annotate_video`,
line 368): again no threshold argument, so the default 0.07 is used. -/
def annotate_frame_score (user_keypoints ref_keypoints : Option (List ℚ)) : ℚ × Finset ℕ :=
  calculate_score user_keypoints ref_keypoints (7 / 100)

/-- C10 (amended): the threshold is a parameter of `_calculate_score` (with
declaration default 0.07), but no call site supplies it: the live session's
per-frame comparison (line 546) always scores at the fixed default 0.07,
and the batch-pipeline and annotation call sites (lines 300, 368) are the
comparator at the same fixed 0.07.  So the strictness is a hidden constant
at every call site, not an externally supplied configuration input. -/
theorem C10_amended_hidden_default_threshold (extract : Frame → Option (List ℚ))
    (f r : Frame) (rest : List Frame) (s : LiveSession)
    (ho : s.refCap.opened = true) (hpos : s.refCap.pos = 0)
    (hframes : s.refCap.frames = r :: rest) :
    (process_frame extract (some f) s).1
      = FrameResult.ok (calculate_score (extract f) (extract r) (7 / 100)).1
          (calculate_score (extract f) (extract r) (7 / 100)).2
          ((extract f).getD []) ((extract r).getD []) ∧
    (∀ u v : Option (List ℚ), batch_frame_score u v = calculate_score u v (7 / 100)) ∧
    (∀ u v : Option (List ℚ), annotate_frame_score u v = calculate_score u v (7 / 100)) := by
  refine ⟨?_, fun u v => rfl, fun u v => rfl⟩
  have hloop1 : (refReadLoop s.refCap).1 = some r := by
    simp [refReadLoop, RefCap.read, ho, hpos, hframes]
  by_cases hd : (s.height, s.width) ≠ (f.height, f.width)
  · simp only [process_frame]
    rw [if_pos hd]
    simp [hloop1]
  · simp only [process_frame]
    rw [if_neg hd]
    simp [hloop1]

/-- Witness for the amended C10: a fresh session whose reference holds one
frame (payload 0); its first `process_frame` call returns the score at the
hidden default threshold. -/
theorem C10_amended_hidden_default_threshold_witness :
    (initSession "live4.mp4" [⟨640, 480, 0⟩]).refCap.opened = true ∧
    (initSession "live4.mp4" [⟨640, 480, 0⟩]).refCap.pos = 0 ∧
    (process_frame (fun _ => none) (some ⟨640, 480, 1⟩)
        (initSession "live4.mp4" [⟨640, 480, 0⟩])).1
      = FrameResult.ok (calculate_score none none (7 / 100)).1
          (calculate_score none none (7 / 100)).2
          ((none : Option (List ℚ)).getD []) ((none : Option (List ℚ)).getD []) :=
  ⟨rfl, rfl,
    (C10_amended_hidden_default_threshold (fun _ => none) ⟨640, 480, 1⟩ ⟨640, 480, 0⟩ []
      (initSession "live4.mp4" [⟨640, 480, 0⟩]) rfl rfl rfl).1⟩

/-- C10 (counterexample to the claim as stated): the live call site is
pinned to threshold 0.07 and the choice matters.  With a single keypoint at
distance 0.08, the wrong set at the hidden default 0.07 is `{0}` while at
0.1 it would be empty: no strictness other than 0.07 is expressible at the
call site, so the threshold is not an externally supplied input there. -/
theorem C10_counterexample_threshold_not_supplied :
    (process_frame (fun fr => if fr.data = 0 then some [(2 : ℚ) / 25, 0] else some [0, 0])
        (some ⟨640, 480, 1⟩) (initSession "live3.mp4" [⟨640, 480, 0⟩])).1
      = FrameResult.ok (calculate_score (some [0, 0]) (some [(2 : ℚ) / 25, 0]) (7 / 100)).1
          (calculate_score (some [0, 0]) (some [(2 : ℚ) / 25, 0]) (7 / 100)).2
          [0, 0] [(2 : ℚ) / 25, 0] ∧
    (calculate_score (some [0, 0]) (some [(2 : ℚ) / 25, 0]) (7 / 100)).2 = {0} ∧
    (calculate_score (some [0, 0]) (some [(2 : ℚ) / 25, 0]) (1 / 10)).2 = ∅ := by
  refine ⟨rfl, ?_, ?_⟩
  · simp [calculate_score, reshape2, keypointDistSq, correctKeypoint,
      Finset.range_one, Finset.filter_singleton]
    norm_num
  · simp [calculate_score, reshape2, keypointDistSq, correctKeypoint,
      Finset.range_one, Finset.filter_singleton]
    norm_num

/-! ### Streaming job model (`main_api.py` lines 146-274, `pose_comparison.py`
lines 257-327)

Events are the messages put on a job's `queue.Queue`.  Plain strings put on
the queue are `log`; the dicts are `progress`/`result`/`error`/`done`
according to their `"type"` tag.  The progress `step` strings are coded as
numbers (0 = processing_frames, 1 = saving_video, 2 = completed); payload
data not inspected by any claim is omitted. -/

inductive Event where
  | log : Event
  | progress (step : ℕ) (percentage : ℕ) : Event
  | result : Event
  | error : Event
  | done : Event
deriving DecidableEq

/-- Outcome of one `PoseComparison.process_video_files` run: the events it
put on the progress queue, the number of frames written to the output
writer, whether the output `cv2.VideoWriter` was ever constructed (which is
what creates the output file), and whether the call raised. -/
structure PvfRun where
  events : List Event
  framesWritten : ℕ
  writerCreated : Bool
  raised : Bool
deriving DecidableEq

/-- The frame loop of `process_video_files` (lines 288-315), indexed by the
current frame `i` with structural fuel.  `readable` is the number of frames
actually deliverable by the sources (the loop breaks, without error, when a
read fails before `total_frames`, line 293); `failAt = some k` models an
exception thrown while processing frame `k` (caught at line 317, turned
into one error event).  Every completed iteration writes one output frame
(line 309) and every 10th frame index pushes one progress event in the
20-90 percent band (lines 312-315).  Returns (events, frames written). -/
def pvfLoop : ℕ → ℕ → ℕ → ℕ → Option ℕ → List Event × ℕ
  | _, 0, _, _, _ => ([], 0)
  | i, fuel + 1, total, readable, failAt =>
    if readable ≤ i then ([], 0)
    else if failAt = some i then ([Event.error], 0)
    else
      let rest := pvfLoop (i + 1) fuel total readable failAt
      ((if i % 10 = 0 then [Event.progress 0 (20 + i * 70 / total)] else []) ++ rest.1,
        rest.2 + 1)

/-- `PoseComparison.process_video_files` (lines 257-327).  If the user video
cannot be opened, or `total_frames = min(ref, user) = 0`, it raises before
creating the output writer and pushes nothing (lines 262-272).  Otherwise
the writer is created (line 283), the loop runs inside `try` (an exception
is swallowed into one error event, line 319), and the `finally` block
always pushes the saving-95 and completed-100 progress events
(lines 326-327) — also after an internal error, since the exception was
caught and the method returns normally. -/
def process_video_files (userOpens : Bool) (refFrameCount userFrameCount readable : ℕ)
    (failAt : Option ℕ) : PvfRun :=
  if userOpens = false then
    { events := [], framesWritten := 0, writerCreated := false, raised := true }
  else
    let total_frames := min refFrameCount userFrameCount
    if total_frames = 0 then
      { events := [], framesWritten := 0, writerCreated := false, raised := true }
    else
      let lp := pvfLoop 0 total_frames total_frames readable failAt
      { events := lp.1 ++ [Event.progress 1 95, Event.progress 2 100]
      , framesWritten := lp.2
      , writerCreated := true
      , raised := false }

/-- The parameters determining one execution path of a batch comparison
job: whether the user video opens, the reported frame counts of both
sources, how many frames are actually readable, whether and where the
side-by-side loop fails, and whether the annotation pass raises. -/
structure BatchParams where
  userOpens : Bool
  refFrameCount : ℕ
  userFrameCount : ℕ
  readable : ℕ
  failAt : Option ℕ
  annotateRaises : Bool
deriving DecidableEq

/-- `run_video_comparison_in_thread` (`main_api.py` lines 202-228): the full
event sequence the worker pushes onto the job's queue.  One leading log
("Starting side-by-side comparison..."), then whatever
`process_video_files` pushed; if it raised, the `except` pushes one error
and the `finally` one done.  Otherwise two logs ("Side-by-side video
created", "Starting user video annotation"), then the annotation pass: if
it raises, one error and the done; on success one more log, exactly one
result, and the done. -/
def run_video_comparison_in_thread (p : BatchParams) : List Event :=
  let pvf := process_video_files p.userOpens p.refFrameCount p.userFrameCount
    p.readable p.failAt
  Event.log ::
    (if pvf.raised then pvf.events ++ [Event.error, Event.done]
     else
       pvf.events ++ [Event.log, Event.log] ++
         (if p.annotateRaises then [Event.error, Event.done]
          else [Event.log, Event.result, Event.done]))

/-- `run_pipeline_in_thread` (`main_api.py` lines 146-158): stdout is
redirected into the queue (each print becomes a log), then exactly one
result (success) or one error (exception), and the `finally` pushes exactly
one done. -/
def run_pipeline_in_thread (logs : ℕ) (fails : Bool) : List Event :=
  List.replicate logs Event.log ++ (if fails then [Event.error] else [Event.result]) ++
    [Event.done]

/-- The consumer loop of `main_api.py` (lines 252-270, identical shape at
lines 174-196): it dequeues events in order and stops after the first done
or the first error (both branches `break`); on every other event it
continues.  `consumerReads evs` is the prefix of the pushed sequence the
consumer dequeues. -/
def consumerReads : List Event → List Event
  | [] => []
  | Event.done :: _ => [Event.done]
  | Event.error :: _ => [Event.error]
  | e :: rest => e :: consumerReads rest

/-- The side-by-side frame loop never pushes a done or a result, and pushes
at most one error. -/
theorem pvfLoop_no_terminal (fuel : ℕ) : ∀ (i total readable : ℕ) (failAt : Option ℕ),
    Event.done ∉ (pvfLoop i fuel total readable failAt).1 ∧
    Event.result ∉ (pvfLoop i fuel total readable failAt).1 ∧
    (pvfLoop i fuel total readable failAt).1.count Event.error ≤ 1 := by
  induction fuel with
  | zero => intro i total readable failAt; simp [pvfLoop]
  | succ n ih =>
    intro i total readable failAt
    simp only [pvfLoop]
    by_cases h1 : readable ≤ i
    · simp [h1]
    · by_cases h2 : failAt = some i
      · simp [h1, h2]
      · obtain ⟨ihd, ihr, ihe⟩ := ih (i + 1) total readable failAt
        by_cases h3 : i % 10 = 0 <;>
          simp [h1, h2, h3, List.count_append, ihd, ihr, List.count_cons] <;>
          omega

/-- `process_video_files` pushes no done and no result, and at most one
error. -/
theorem process_video_files_events (userOpens : Bool) (rc uc readable : ℕ)
    (failAt : Option ℕ) :
    Event.done ∉ (process_video_files userOpens rc uc readable failAt).events ∧
    Event.result ∉ (process_video_files userOpens rc uc readable failAt).events ∧
    (process_video_files userOpens rc uc readable failAt).events.count Event.error ≤ 1 := by
  unfold process_video_files
  by_cases h1 : userOpens = false
  · simp [h1]
  · by_cases h2 : min rc uc = 0
    · simp [h1, h2]
    · obtain ⟨hd, hr, he⟩ := pvfLoop_no_terminal (min rc uc) 0 (min rc uc) readable failAt
      simp only [h1, h2]
      simp [List.count_append, hd, hr, List.count_cons]
      exact he

/-- The consumer dequeues a prefix of the pushed sequence. -/
theorem consumerReads_prefix : ∀ evs : List Event, ∃ rest, evs = consumerReads evs ++ rest
  | [] => ⟨[], rfl⟩
  | Event.done :: evs => ⟨evs, rfl⟩
  | Event.error :: evs => ⟨evs, rfl⟩
  | Event.log :: evs => by
    obtain ⟨rest, h⟩ := consumerReads_prefix evs
    exact ⟨rest, by simpa [consumerReads] using congrArg (Event.log :: ·) h⟩
  | Event.progress a b :: evs => by
    obtain ⟨rest, h⟩ := consumerReads_prefix evs
    exact ⟨rest, by simpa [consumerReads] using congrArg (Event.progress a b :: ·) h⟩
  | Event.result :: evs => by
    obtain ⟨rest, h⟩ := consumerReads_prefix evs
    exact ⟨rest, by simpa [consumerReads] using congrArg (Event.result :: ·) h⟩

/-- C1 (amended): for every execution path of a batch comparison job and of
a pipeline job, the sequence the worker pushes onto the job's queue ends
with exactly one done (the only done), with every result and error pushed
before it; a pipeline job pushes exactly one of result/error; a batch
comparison job pushes at most one result and at most two errors (one from
a mid-loop failure of the side-by-side pass, one from the job boundary).
The consumer dequeues a prefix of the pushed sequence, stopping at the
first error or done — so on failure paths the consumer-observed sequence
ends with the error, not with the done. -/
theorem C1_amended_event_protocol :
    (∀ p : BatchParams, ∃ body,
        run_video_comparison_in_thread p = body ++ [Event.done] ∧
        Event.done ∉ body ∧
        body.count Event.result ≤ 1 ∧
        body.count Event.error ≤ 2) ∧
    (∀ (logs : ℕ) (fails : Bool), ∃ body,
        run_pipeline_in_thread logs fails = body ++ [Event.done] ∧
        Event.done ∉ body ∧
        body.count Event.result + body.count Event.error = 1) ∧
    (∀ evs : List Event, ∃ rest, evs = consumerReads evs ++ rest) := by
  refine ⟨?_, ?_, consumerReads_prefix⟩
  · intro p
    obtain ⟨hd, hr, he⟩ := process_video_files_events p.userOpens p.refFrameCount
      p.userFrameCount p.readable p.failAt
    have hr0 : (process_video_files p.userOpens p.refFrameCount p.userFrameCount
        p.readable p.failAt).events.count Event.result = 0 :=
      List.count_eq_zero_of_not_mem hr
    unfold run_video_comparison_in_thread
    by_cases hraised : (process_video_files p.userOpens p.refFrameCount p.userFrameCount
        p.readable p.failAt).raised
    · refine ⟨Event.log :: ((process_video_files p.userOpens p.refFrameCount p.userFrameCount
        p.readable p.failAt).events ++ [Event.error]), ?_, ?_, ?_, ?_⟩ <;>
        simp [hraised, hd, hr, hr0, List.count_append, List.count_cons] <;> omega
    · by_cases hanno : p.annotateRaises
      · refine ⟨Event.log :: ((process_video_files p.userOpens p.refFrameCount p.userFrameCount
          p.readable p.failAt).events ++ [Event.log, Event.log, Event.error]), ?_, ?_, ?_, ?_⟩ <;>
          simp [hraised, hanno, hd, hr, hr0, List.count_append, List.count_cons] <;> omega
      · refine ⟨Event.log :: ((process_video_files p.userOpens p.refFrameCount p.userFrameCount
          p.readable p.failAt).events ++ [Event.log, Event.log, Event.log, Event.result]),
            ?_, ?_, ?_, ?_⟩ <;>
          simp [hraised, hanno, hd, hr, hr0, List.count_append, List.count_cons] <;> omega
  · intro logs fails
    by_cases hf : fails <;>
      refine ⟨List.replicate logs Event.log ++
        (if fails then [Event.error] else [Event.result]), ?_, ?_, ?_⟩ <;>
      simp [run_pipeline_in_thread, hf, List.count_append, List.mem_replicate,
        List.count_replicate, List.count_cons]

/-- C1 (counterexample to the claim as stated): the batch path where the
side-by-side loop fails at frame 0 (exception caught inside
`process_video_files`, which then returns normally) and the annotation pass
succeeds.  The worker pushes both one error and, later, one result — so the
pushed sequence does not contain at most one of {result, error} — and the
consumer, which stops at the first error, observes a sequence ending in the
error rather than in a done. -/
theorem C1_counterexample_error_then_result :
    (run_video_comparison_in_thread
        { userOpens := true, refFrameCount := 5, userFrameCount := 5, readable := 5
        , failAt := some 0, annotateRaises := false }).count Event.error = 1 ∧
    (run_video_comparison_in_thread
        { userOpens := true, refFrameCount := 5, userFrameCount := 5, readable := 5
        , failAt := some 0, annotateRaises := false }).count Event.result = 1 ∧
    (consumerReads (run_video_comparison_in_thread
        { userOpens := true, refFrameCount := 5, userFrameCount := 5, readable := 5
        , failAt := some 0, annotateRaises := false })).getLast? ≠ some Event.done := by
  decide

/-- C6: a batch comparison job whose user video opens but where either
source reports zero frames fails fast: `process_video_files` raises before
writing any frame and before constructing the output `cv2.VideoWriter` (so
no output file is created), and the worker delivers to the consumer's queue
exactly one log, then one error immediately followed by the single done —
no result, no progress, no partial output. -/
theorem C6_zero_frames_fail_fast (p : BatchParams)
    (hopen : p.userOpens = true)
    (hzero : p.refFrameCount = 0 ∨ p.userFrameCount = 0) :
    (process_video_files p.userOpens p.refFrameCount p.userFrameCount
        p.readable p.failAt).framesWritten = 0 ∧
    (process_video_files p.userOpens p.refFrameCount p.userFrameCount
        p.readable p.failAt).writerCreated = false ∧
    run_video_comparison_in_thread p = [Event.log, Event.error, Event.done] := by
  have htot : min p.refFrameCount p.userFrameCount = 0 := by
    rcases hzero with h | h <;> simp [h]
  unfold run_video_comparison_in_thread process_video_files
  simp [hopen, htot]

/-- Witness for C6: reference source reporting 0 frames, user source 3. -/
theorem C6_zero_frames_fail_fast_witness :
    (⟨true, 0, 3, 3, none, false⟩ : BatchParams).userOpens = true ∧
    run_video_comparison_in_thread ⟨true, 0, 3, 3, none, false⟩
      = [Event.log, Event.error, Event.done] :=
  ⟨rfl, (C6_zero_frames_fail_fast ⟨true, 0, 3, 3, none, false⟩ rfl (Or.inl rfl)).2.2⟩
